import Mathlib

/-!
Shallow embedding of the go-public-dns ingestion-and-query core
(file src/unnamed/part_002: `Nameserver`, `LoadFromFile`, `DumpToDatabase`,
`PublicDNS.GetAllFromCountry`, `PublicDNS.GetBestFromCountry`,
`PublicDNS.GetBestFromCountries`), over an explicit model of the SQLite
store the package drives through database/sql.

Modelling conventions:
* The store is a `DBState`: the optional `nameservers` table (a list of rows
  in rowid/insertion order) plus a flag recording whether the three
  supporting indexes exist.  SQL statements become functions on `DBState`.
* Failures of the connection/engine that do not depend on the data (failing
  `CREATE TABLE`, index creation, `Begin`, `Prepare`, `Commit`, or a
  `DROP TABLE` that fails even though the table exists) are injected through
  a `DBEnv` of booleans, one per statement, mirroring the error values the
  Go code inspects or discards.
* The Go struct field `Reliability` is a decimal string that the FLOAT
  column affinity of SQLite coerces to a numeric value; the embedding works
  directly with that numeric value as a `Rat`.  Timestamps are modelled as
  naturals in chronological order.
* A Go panic (nil-`Result` dereference, `strings.Repeat` with a negative
  count) is a distinguished outcome constructor, not an error value.
-/

/-- One resolver record: the Go struct `Nameserver` of part_002, which is
both the decoded CSV row and the row stored in / scanned from the table. -/
structure Nameserver where
  ipAddress : String
  name : String
  country : String
  city : String
  version : String
  error : String
  dnssec : Bool
  reliability : Rat
  checkedAt : Nat
  createdAt : Nat
deriving DecidableEq

/-- State of the SQLite database: the `nameservers` table (present or not,
rows listed in rowid order) and whether the three supporting indexes
(`country`, `(country, reliability)`, `reliability`) exist. -/
structure DBState where
  table : Option (List Nameserver)
  indexed : Bool
deriving DecidableEq

/-- Injected engine/connection failures, one flag per SQL statement whose
error value the Go code could observe.  `dropFails` is a failure of
`DROP TABLE` that is not the "no such table" case (the latter is determined
by the state itself). -/
structure DBEnv where
  dropFails : Bool
  createTableFails : Bool
  createIndexFails : Bool
  beginFails : Bool
  prepareFails : Bool
  commitFails : Bool
deriving DecidableEq

/-- The environment of a healthy connection: no injected failures. -/
def cleanEnv : DBEnv := ⟨false, false, false, false, false, false⟩

/-- Stage labels for the error returns of `DumpToDatabase`; the constructor
records which statement produced the returned error. -/
inductive DumpError where
  | createTableError
  | createIndexError
  | beginError
  | prepareError
  | commitError
deriving DecidableEq

/-- Outcome of `DumpToDatabase`: the Go pair `(int64, error)` together with
the database state it leaves behind, or a process-ending panic. -/
inductive DumpResult where
  | ok (total : Int) (st : DBState)
  | err (e : DumpError) (total : Int) (st : DBState)
  | panicked
deriving DecidableEq

/-- Effect of the statement `DROP TABLE 'nameservers'` whose error the
source discards (part_002 line 158).  If the table is absent the statement
fails with "no such table" and changes nothing; if present it removes the
table and its indexes unless the injected failure leaves it in place. -/
def execDrop (env : DBEnv) (st : DBState) : DBState :=
  match st.table with
  | none => st
  | some _ => if env.dropFails then st else ⟨none, false⟩

/-- Rows of the table after `CREATE TABLE IF NOT EXISTS` succeeded: the
existing rows if the table survived the drop, a fresh empty table
otherwise. -/
def rowsAfterCreate (st1 : DBState) : List Nameserver :=
  st1.table.getD []

/-- The insert loop of `DumpToDatabase` (part_002 lines 219-235).  Each
`stmt.Exec` appends the record unless its `ip` collides with a row already
in the table, in which case `Exec` returns a nil `Result` together with the
constraint error; the source ignores the error and calls `RowsAffected` on
the nil `Result`, which is a panic (`none`).  On success the affected-row
count 1 is accumulated into the running total. -/
def insertAll : List Nameserver → List Nameserver → Int → Option (List Nameserver × Int)
  | [], rows, total => some (rows, total)
  | s :: ss, rows, total =>
    if rows.any (fun r => r.ipAddress == s.ipAddress) then none
    else insertAll ss (rows ++ [s]) (total + 1)

/-- The Ingestor `DumpToDatabase` of part_002 (lines 151-243): drop the
table discarding the error, `CREATE TABLE IF NOT EXISTS`, create the three
indexes (no IF NOT EXISTS, so pre-existing indexes make the statement
fail), begin a transaction, prepare the insert, run the insert loop, and
commit; a commit failure rolls the transaction back.  Every error return
carries the running total, which is 0 on all error paths (the commit path
returns the literal 0). -/
def dumpToDatabase (env : DBEnv) (st : DBState) (servers : List Nameserver) : DumpResult :=
  if env.createTableFails then .err .createTableError 0 (execDrop env st)
  else if env.createIndexFails || (execDrop env st).indexed then
    .err .createIndexError 0 ⟨some (rowsAfterCreate (execDrop env st)), (execDrop env st).indexed⟩
  else if env.beginFails then
    .err .beginError 0 ⟨some (rowsAfterCreate (execDrop env st)), true⟩
  else if env.prepareFails then
    .err .prepareError 0 ⟨some (rowsAfterCreate (execDrop env st)), true⟩
  else
    match insertAll servers (rowsAfterCreate (execDrop env st)) 0 with
    | none => .panicked
    | some (rows2, total) =>
      if env.commitFails then .err .commitError 0 ⟨some (rowsAfterCreate (execDrop env st)), true⟩
      else .ok total ⟨some rows2, true⟩

/-- Projection performed by every query in part_002: a fresh zero-valued
`&Nameserver{}` whose `IPAddress`, `Country` and `City` fields are filled by
`result.Scan`; all other fields keep their Go zero values. -/
def scanICC (r : Nameserver) : Nameserver :=
  ⟨r.ipAddress, "", r.country, r.city, "", "", false, 0, 0, 0⟩

/-- The query `GetAllFromCountry` (part_002 lines 254-276): `SELECT ip,
country, city FROM nameservers WHERE country = ?`, scanning each row into a
fresh record.  `none` is the error return used when the query itself fails
(no `nameservers` table). -/
def getAllFromCountry (st : DBState) (country : String) : Option (List Nameserver) :=
  match st.table with
  | none => none
  | some rows => some ((rows.filter (fun r => r.country == country)).map scanICC)

/-- Error outcomes of `GetBestFromCountry`: the query fails because the
table is missing, or `Scan` reports `sql.ErrNoRows` because no row matched
the country. -/
inductive BestError where
  | noSuchTable
  | noRows
deriving DecidableEq

/-- Row delivered by `ORDER BY reliability DESC LIMIT 1` as SQLite executes
it over the schema built by `DumpToDatabase`: the engine satisfies the
ordering by scanning the `(country, reliability)` index backwards, so among
rows of maximal reliability the one latest in rowid (insertion) order is
reached first.  This fold keeps the later row on ties. -/
def lastMaxRel : List Nameserver → Option Nameserver
  | [] => none
  | x :: xs =>
    match lastMaxRel xs with
    | none => some x
    | some m => if m.reliability < x.reliability then some x else some m

/-- The query `GetBestFromCountry` (part_002 lines 281-292): `SELECT ip,
country, city FROM nameservers WHERE country = ? ORDER BY reliability DESC
LIMIT 1`, with `Scan` returning `sql.ErrNoRows` when nothing matched. -/
def getBestFromCountry (st : DBState) (country : String) : Except BestError Nameserver :=
  match st.table with
  | none => .error .noSuchTable
  | some rows =>
    match lastMaxRel (rows.filter (fun r => r.country == country)) with
    | none => .error .noRows
    | some r => .ok (scanICC r)

/-- Stable insertion of `a` into `l` before the first element `b` with
`le a b`. -/
def insertSorted (le : Nameserver → Nameserver → Bool) (a : Nameserver) :
    List Nameserver → List Nameserver
  | [] => [a]
  | b :: l => if le a b then a :: b :: l else b :: insertSorted le a l

/-- Stable sort by the comparator `le` (insertion sort: an element is
placed before all later elements it ties with). -/
def sortBy (le : Nameserver → Nameserver → Bool) : List Nameserver → List Nameserver
  | [] => []
  | a :: l => insertSorted le a (sortBy le l)

/-- Comparator of the subquery ordering `ORDER BY reliability ASC,
n.checked_at ASC` of `GetBestFromCountries`. -/
def innerLe (a b : Nameserver) : Bool :=
  decide (a.reliability < b.reliability) ||
    (decide (a.reliability = b.reliability) && decide (a.checkedAt ≤ b.checkedAt))

/-- Comparator of the outer `GROUP BY nn.country`, which sorts the
materialized subquery rows by the grouping key — the lexicographic order on
the country code's characters (SQLite's BINARY collation agrees with
codepoint order on valid text). -/
def countryLe (a b : Nameserver) : Bool :=
  decide (a.country.data ≤ b.country.data)

/-- The filter of the `GetBestFromCountries` subquery: requested country,
non-empty name, non-empty city, reliability exactly 1. -/
def goodFor (countries : List String) (r : Nameserver) : Bool :=
  countries.contains r.country && !(r.name == "") && !(r.city == "") &&
    decide (r.reliability = 1)

/-- Representative selection of SQLite for bare columns under `GROUP BY`
over rows arriving sorted by the grouping key: scanning a country-sorted
list, the first row of each run of equal countries is emitted (observed
engine behaviour for this query shape).  `c` is the country of the
previously scanned row. -/
def firstOfRunsAux (c : String) : List Nameserver → List Nameserver
  | [] => []
  | r :: rs => if r.country == c then firstOfRunsAux c rs
               else r :: firstOfRunsAux r.country rs

/-- First row of each run of equal countries in a country-sorted list. -/
def firstOfRuns : List Nameserver → List Nameserver
  | [] => []
  | r :: rs => r :: firstOfRunsAux r.country rs

/-- Outcome of `GetBestFromCountries`: the records and nil error, a non-nil
error (failing `Prepare` or `Query`), or the panic raised before any
database access when `strings.Repeat` is called with a negative count. -/
inductive CountriesResult where
  | ok (records : List Nameserver)
  | err
  | panicked
deriving DecidableEq

/-- The query `GetBestFromCountries` (part_002 lines 296-332).  With an
empty country list, `"?" + strings.Repeat(", ?", len(countries)-1)` panics
(`strings.Repeat` rejects a negative count) before the statement is
prepared.  Otherwise the subquery filters the requested, fully reliable,
named and located rows and orders them by `(reliability, checked_at)`
ascending; the outer `GROUP BY nn.country` sorts them by country and emits
the first row of each group, scanned through `scanICC`. -/
def getBestFromCountries (st : DBState) (countries : List String) : CountriesResult :=
  if countries.isEmpty then .panicked
  else
    match st.table with
    | none => .err
    | some rows =>
      .ok ((firstOfRuns (sortBy countryLe (sortBy innerLe
        (rows.filter (goodFor countries))))).map scanICC)

/-- One data line of a delimited source: either it decodes to a record or
it violates the expected shape (wrong column count, malformed timestamp,
and so on). -/
inductive CSVLine where
  | row (ns : Nameserver)
  | malformed
deriving DecidableEq

/-- A readable source: its data section, one `CSVLine` per line (the fixed
header row is implicit). -/
structure CSVFile where
  lines : List CSVLine
deriving DecidableEq

/-- Modelled from the spec: `gocsv.UnmarshalFile`, the external CSV library
used by `LoadFromFile` and not part of this repository, decodes the
delimited content all-or-nothing — it fails on content that violates the
expected shape and otherwise yields the records in file order, the empty
sequence for an empty data section. -/
def unmarshalCSV : List CSVLine → Option (List Nameserver)
  | [] => some []
  | .row ns :: ls => (unmarshalCSV ls).map (fun rest => ns :: rest)
  | .malformed :: _ => none

/-- Error classes of `LoadFromFile`: the source cannot be opened/read, or
its content violates the expected delimited shape. -/
inductive LoadError where
  | notFound
  | decodeError
deriving DecidableEq

/-- The Loader `LoadFromFile` (part_002 lines 77-94) over a file system
modelled as an association list from names to readable sources: `os.Open`
failure and `gocsv` failure each return `(nil, err)`; success returns the
decoded records and nil error. -/
def loadFromFile (fs : List (String × CSVFile)) (filename : String) :
    Option (List Nameserver) × Option LoadError :=
  match fs.lookup filename with
  | none => (none, some .notFound)
  | some f =>
    match unmarshalCSV f.lines with
    | none => (none, some .decodeError)
    | some servers => (some servers, none)

/-- Definition following the words of claim C6: the row for the country
with the maximum reliability, ties broken toward the first such row in
store order.  Kept for comparison with what `getBestFromCountry`
actually returns. -/
def firstMaxRel : List Nameserver → Option Nameserver
  | [] => none
  | x :: xs =>
    match firstMaxRel xs with
    | none => some x
    | some m => if x.reliability < m.reliability then some m else some x

/-- Sample record: the German resolver of the repository's test data. -/
def nsA : Nameserver := ⟨"194.150.168.168", "dns.example", "DE", "Berlin", "", "", true, 1, 10, 5⟩

/-- Sample record: a United States resolver. -/
def nsB : Nameserver := ⟨"8.8.8.8", "google", "US", "NewYork", "", "", true, 1, 20, 5⟩

/-- Sample record sharing the ip address of `nsA` but nothing else. -/
def nsAdup : Nameserver := ⟨"194.150.168.168", "other", "DE", "Munich", "", "", false, 1, 30, 5⟩

/-- Sample record: a second German resolver, fully reliable, checked later
than `nsA`. -/
def nsC : Nameserver := ⟨"1.0.0.1", "cloud", "DE", "Hamburg", "", "", true, 1, 40, 5⟩

/-- Sample record: a German resolver with reliability below the maximum. -/
def nsLow : Nameserver := ⟨"2.0.0.2", "weak", "DE", "Bremen", "", "", false, 0, 1, 5⟩

/-- The store before any ingest: no table, no indexes. -/
def emptyDB : DBState := ⟨none, false⟩

/-- A record whose only populated fields are those filled by the queries'
`Scan`: ip address, country and city; every other field is the Go zero
value. -/
def zeroExceptICC (r : Nameserver) : Prop :=
  r.name = "" ∧ r.version = "" ∧ r.error = "" ∧ r.dnssec = false ∧
    r.reliability = 0 ∧ r.checkedAt = 0 ∧ r.createdAt = 0

/-- Ordering invariant carried through the grouping pipeline: two rows of
the same country appear in ascending checked-at order. -/
def sameCountryMono (a b : Nameserver) : Prop :=
  a.country = b.country → a.checkedAt ≤ b.checkedAt

theorem insertAll_eq_some (ss : List Nameserver) : ∀ rows total rows2 tot,
    insertAll ss rows total = some (rows2, tot) →
    rows2 = rows ++ ss ∧ tot = total + ss.length := by
  induction ss with
  | nil =>
    intro rows total rows2 tot h
    simp only [insertAll, Option.some.injEq, Prod.mk.injEq] at h
    simp [← h.1, ← h.2]
  | cons s ss ih =>
    intro rows total rows2 tot h
    simp only [insertAll] at h
    split at h
    · exact absurd h (by simp)
    · obtain ⟨h1, h2⟩ := ih _ _ _ _ h
      refine ⟨by simp [h1], ?_⟩
      rw [h2]
      simp only [List.length_cons]
      push_cast
      omega

theorem dump_err_zero (env : DBEnv) (st : DBState) (servers : List Nameserver)
    (e : DumpError) (n : Int) (st1 : DBState)
    (h : dumpToDatabase env st servers = .err e n st1) : n = 0 := by
  unfold dumpToDatabase at h
  by_cases h1 : env.createTableFails <;> simp only [h1, if_true, if_false] at h
  · exact (DumpResult.err.injEq _ _ _ _ _ _).mp h |>.2.1.symm
  by_cases h2 : env.createIndexFails || (execDrop env st).indexed <;>
    simp only [h2, if_true, if_false] at h
  · exact (DumpResult.err.injEq _ _ _ _ _ _).mp h |>.2.1.symm
  by_cases h3 : env.beginFails <;> simp only [h3, if_true, if_false] at h
  · exact (DumpResult.err.injEq _ _ _ _ _ _).mp h |>.2.1.symm
  by_cases h4 : env.prepareFails <;> simp only [h4, if_true, if_false] at h
  · exact (DumpResult.err.injEq _ _ _ _ _ _).mp h |>.2.1.symm
  rcases hins : insertAll servers (rowsAfterCreate (execDrop env st)) 0 with _ | ⟨rows2, total⟩ <;>
    rw [hins] at h
  · exact absurd h (by simp)
  by_cases h5 : env.commitFails <;> simp only [h5, if_true, if_false] at h
  · exact (DumpResult.err.injEq _ _ _ _ _ _).mp h |>.2.1.symm
  · exact absurd h (by simp)

/-- C1: for every input record sequence, when `DumpToDatabase` returns with
no error the returned row count equals the number of input records, and
whenever it returns a non-nil error the returned count is zero and the
error identifies the failing stage — table creation, index creation,
begin, prepare, or commit — each stage error arising only from that
stage's failure. -/
theorem c1_dump_count (env : DBEnv) (st : DBState) (servers : List Nameserver) :
    (∀ n st1, dumpToDatabase env st servers = .ok n st1 → n = servers.length) ∧
    (∀ e n st1, dumpToDatabase env st servers = .err e n st1 → n = 0 ∧
      (e = .createTableError → env.createTableFails = true) ∧
      (e = .createIndexError → env.createIndexFails = true ∨ (execDrop env st).indexed = true) ∧
      (e = .beginError → env.beginFails = true) ∧
      (e = .prepareError → env.prepareFails = true) ∧
      (e = .commitError → env.commitFails = true)) := by
  constructor
  · intro n st1 h
    unfold dumpToDatabase at h
    by_cases h1 : env.createTableFails <;> simp only [h1, if_true, if_false] at h
    · exact absurd h (by simp)
    by_cases h2 : env.createIndexFails || (execDrop env st).indexed <;>
      simp only [h2, if_true, if_false] at h
    · exact absurd h (by simp)
    by_cases h3 : env.beginFails <;> simp only [h3, if_true, if_false] at h
    · exact absurd h (by simp)
    by_cases h4 : env.prepareFails <;> simp only [h4, if_true, if_false] at h
    · exact absurd h (by simp)
    rcases hins : insertAll servers (rowsAfterCreate (execDrop env st)) 0 with _ | ⟨rows2, total⟩ <;>
      rw [hins] at h
    · exact absurd h (by simp)
    by_cases h5 : env.commitFails <;> simp only [h5, if_true, if_false] at h
    · exact absurd h (by simp)
    obtain ⟨h6, -⟩ := (DumpResult.ok.injEq _ _ _ _).mp h
    obtain ⟨-, h7⟩ := insertAll_eq_some servers _ _ _ _ hins
    omega
  · intro e n st1 h
    refine ⟨dump_err_zero env st servers e n st1 h, ?_⟩
    unfold dumpToDatabase at h
    by_cases h1 : env.createTableFails <;> simp only [h1, if_true, if_false] at h
    · obtain ⟨he, -, -⟩ := (DumpResult.err.injEq _ _ _ _ _ _).mp h
      subst he
      simp [h1]
    by_cases h2 : env.createIndexFails || (execDrop env st).indexed <;>
      simp only [h2, if_true, if_false] at h
    · obtain ⟨he, -, -⟩ := (DumpResult.err.injEq _ _ _ _ _ _).mp h
      subst he
      simp only [Bool.or_eq_true] at h2
      simp [h2]
    by_cases h3 : env.beginFails <;> simp only [h3, if_true, if_false] at h
    · obtain ⟨he, -, -⟩ := (DumpResult.err.injEq _ _ _ _ _ _).mp h
      subst he
      simp [h3]
    by_cases h4 : env.prepareFails <;> simp only [h4, if_true, if_false] at h
    · obtain ⟨he, -, -⟩ := (DumpResult.err.injEq _ _ _ _ _ _).mp h
      subst he
      simp [h4]
    rcases hins : insertAll servers (rowsAfterCreate (execDrop env st)) 0 with _ | ⟨rows2, total⟩ <;>
      rw [hins] at h
    · exact absurd h (by simp)
    by_cases h5 : env.commitFails <;> simp only [h5, if_true, if_false] at h
    · obtain ⟨he, -, -⟩ := (DumpResult.err.injEq _ _ _ _ _ _).mp h
      subst he
      simp [h5]
    · exact absurd h (by simp)

/-- Witness for C1 at a concrete input: ingesting two records into the
empty store succeeds with a reported count of 2. -/
theorem c1_dump_count_witness :
    dumpToDatabase cleanEnv emptyDB [nsA, nsB] = .ok 2 ⟨some [nsA, nsB], true⟩ ∧
    (2 : Int) = ([nsA, nsB] : List Nameserver).length :=
  ⟨by decide, (c1_dump_count cleanEnv emptyDB [nsA, nsB]).1 2 ⟨some [nsA, nsB], true⟩ (by decide)⟩

/-- C3: when every stage up to the insert loop succeeds and the commit
fails, `DumpToDatabase` rolls the transaction back — the state it leaves is
exactly the pre-transaction state, containing none of this call's inserted
rows — and it returns zero persisted rows together with the commit error;
moreover no execution returns a non-zero count alongside a non-nil
error. -/
theorem c3_commit_rollback (env : DBEnv) (st : DBState) (servers : List Nameserver) :
    (∀ rows2 total, env.createTableFails = false → env.createIndexFails = false →
      (execDrop env st).indexed = false → env.beginFails = false →
      env.prepareFails = false → env.commitFails = true →
      insertAll servers (rowsAfterCreate (execDrop env st)) 0 = some (rows2, total) →
      dumpToDatabase env st servers =
        .err .commitError 0 ⟨some (rowsAfterCreate (execDrop env st)), true⟩) ∧
    (∀ e n st1, dumpToDatabase env st servers = .err e n st1 → n = 0) := by
  constructor
  · intro rows2 total h1 h2 h3 h4 h5 h6 hins
    unfold dumpToDatabase
    rw [h1, h2, h3, h4, h5, hins]
    simp [h6]
  · intro e n st1 h
    exact dump_err_zero env st servers e n st1 h

/-- Witness for C3 at a concrete input: with only the commit failing, the
ingest of one record returns the commit error with zero rows and leaves the
freshly created empty table. -/
theorem c3_commit_rollback_witness :
    dumpToDatabase ⟨false, false, false, false, false, true⟩ emptyDB [nsA] =
      .err .commitError 0 ⟨some [], true⟩ :=
  (c3_commit_rollback ⟨false, false, false, false, false, true⟩ emptyDB [nsA]).1
    [nsA] 1 rfl rfl rfl rfl rfl rfl (by decide)

/-- C5, recording the code bug: an input whose second record reuses the ip
address of the first makes the insert loop's `stmt.Exec` fail with the
primary-key conflict, and the source then calls `RowsAffected` on the nil
`Result` — a panic, not the returned error the claim requires. -/
theorem c5_duplicate_ip_panics :
    nsA.ipAddress = nsAdup.ipAddress ∧
    dumpToDatabase cleanEnv emptyDB [nsA, nsAdup] = .panicked := by
  constructor
  · rfl
  · decide

/-- Counterexample to C7: the drop statement fails for a reason other than
"table does not exist" (the table is present and stays), yet because table
creation uses IF NOT EXISTS every later stage succeeds and `DumpToDatabase`
returns with no error at all — the drop failure is not propagated, and the
leftover row survives the ingest. -/
theorem c7_drop_counterexample :
    (⟨true, false, false, false, false, false⟩ : DBEnv).dropFails = true ∧
    (⟨some [nsB], false⟩ : DBState).table ≠ none ∧
    dumpToDatabase ⟨true, false, false, false, false, false⟩ ⟨some [nsB], false⟩ [nsA] =
      .ok 1 ⟨some [nsB, nsA], true⟩ := by
  refine ⟨rfl, by simp, by decide⟩

/-- C7 as amended: every failure of the drop-table statement is ignored at
the drop step.  A drop failure that leaves the table in place is silently
absorbed — when the remaining stages succeed the load reports success over
the leftover rows — and the "does not exist" failure on an absent table is
likewise absorbed; a drop problem can surface only through a later stage
failing on its own. -/
theorem c7_drop_ignored :
    (∀ (st : DBState) (rows servers rows2 : List Nameserver) (total : Int),
      st.table = some rows → st.indexed = false →
      insertAll servers rows 0 = some (rows2, total) →
      dumpToDatabase ⟨true, false, false, false, false, false⟩ st servers =
        .ok total ⟨some rows2, true⟩) ∧
    (∀ (st : DBState) (servers rows2 : List Nameserver) (total : Int),
      st.table = none → st.indexed = false →
      insertAll servers [] 0 = some (rows2, total) →
      dumpToDatabase cleanEnv st servers = .ok total ⟨some rows2, true⟩) := by
  constructor
  · intro st rows servers rows2 total ht hidx hins
    have hdrop : execDrop ⟨true, false, false, false, false, false⟩ st = st := by
      simp [execDrop, ht]
    have hrows : rowsAfterCreate st = rows := by
      unfold rowsAfterCreate
      rw [ht]
      rfl
    unfold dumpToDatabase
    rw [hdrop, hrows, hidx, hins]
    rfl
  · intro st servers rows2 total ht hidx hins
    have hdrop : execDrop cleanEnv st = st := by
      simp [execDrop, ht]
    have hrows : rowsAfterCreate st = [] := by
      unfold rowsAfterCreate
      rw [ht]
      rfl
    unfold dumpToDatabase
    rw [hdrop, hrows, hidx, hins]
    rfl

/-- Witness for the amended C7 at a concrete input: with the drop failing
and the old row left behind, ingesting one fresh record returns success
with count 1 and both rows in the table. -/
theorem c7_drop_ignored_witness :
    dumpToDatabase ⟨true, false, false, false, false, false⟩ ⟨some [nsB], false⟩ [nsC] =
      .ok 1 ⟨some [nsB, nsC], true⟩ :=
  c7_drop_ignored.1 ⟨some [nsB], false⟩ [nsB] [nsC] [nsB, nsC] 1 rfl rfl (by decide)

/-- C9: on a healthy connection a successful ingest leaves a store fully
determined by the input records — the table is destroyed and recreated
first, so nothing survives from before — and therefore running the
identical ingest again succeeds with the same count and leaves the
identical store, making every subsequent query answer the same both
times. -/
theorem c9_ingest_idempotent (st : DBState) (servers : List Nameserver) (n : Int) (s1 : DBState)
    (h : dumpToDatabase cleanEnv st servers = .ok n s1) :
    dumpToDatabase cleanEnv s1 servers = .ok n s1 := by
  rcases st with ⟨tb, ix⟩
  have step : ∃ rows2, insertAll servers [] 0 = some (rows2, n) ∧ s1 = ⟨some rows2, true⟩ := by
    rcases tb with _ | rows
    · cases ix
      · simp [dumpToDatabase, cleanEnv, execDrop, rowsAfterCreate] at h
        rcases hins : insertAll servers [] 0 with _ | ⟨rows2, total⟩ <;>
          rw [hins] at h <;> simp at h
        exact ⟨rows2, by rw [← h.1], h.2.symm⟩
      · simp [dumpToDatabase, cleanEnv, execDrop, rowsAfterCreate] at h
    · simp [dumpToDatabase, cleanEnv, execDrop, rowsAfterCreate] at h
      rcases hins : insertAll servers [] 0 with _ | ⟨rows2, total⟩ <;>
        rw [hins] at h <;> simp at h
      exact ⟨rows2, by rw [← h.1], h.2.symm⟩
  obtain ⟨rows2, hins, hs1⟩ := step
  subst hs1
  simp [dumpToDatabase, cleanEnv, execDrop, rowsAfterCreate, hins]

/-- Witness for C9 at a concrete input: a successful two-record ingest,
repeated, returns the same count and the same store. -/
theorem c9_ingest_idempotent_witness :
    dumpToDatabase cleanEnv ⟨some [nsA, nsB], true⟩ [nsB, nsC] = .ok 2 ⟨some [nsB, nsC], true⟩ :=
  c9_ingest_idempotent ⟨some [nsA, nsB], true⟩ [nsB, nsC] 2 ⟨some [nsB, nsC], true⟩ (by decide)

theorem unmarshal_none_of_malformed (ls : List CSVLine) (h : CSVLine.malformed ∈ ls) :
    unmarshalCSV ls = none := by
  induction ls with
  | nil => cases h
  | cons l ls ih =>
    cases l with
    | row ns =>
      have hm : CSVLine.malformed ∈ ls := by
        rcases List.mem_cons.mp h with h1 | h1
        · exact absurd h1 (by simp)
        · exact h1
      simp [unmarshalCSV, ih hm]
    | malformed => simp [unmarshalCSV]

/-- C8: `LoadFromFile` returns the not-found error and no records when the
source cannot be opened, returns the decode error and no records when the
content violates the expected delimited shape (all-or-nothing: never a
partial sequence), and returns the empty sequence with nil error for a
readable source whose data section is empty. -/
theorem c8_load_all_or_nothing (fs : List (String × CSVFile)) (filename : String) :
    (fs.lookup filename = none → loadFromFile fs filename = (none, some .notFound)) ∧
    (∀ f, fs.lookup filename = some f → CSVLine.malformed ∈ f.lines →
      loadFromFile fs filename = (none, some .decodeError)) ∧
    (∀ f, fs.lookup filename = some f → f.lines = [] →
      loadFromFile fs filename = (some [], none)) ∧
    (∀ e, (loadFromFile fs filename).2 = some e → (loadFromFile fs filename).1 = none) := by
  refine ⟨?_, ?_, ?_, ?_⟩
  · intro h
    simp [loadFromFile, h]
  · intro f hf hm
    simp [loadFromFile, hf, unmarshal_none_of_malformed f.lines hm]
  · intro f hf he
    simp [loadFromFile, hf, he, unmarshalCSV]
  · have hshape : loadFromFile fs filename = (none, some .notFound) ∨
        loadFromFile fs filename = (none, some .decodeError) ∨
        ∃ s, loadFromFile fs filename = (some s, none) := by
      unfold loadFromFile
      rcases fs.lookup filename with _ | f
      · exact Or.inl rfl
      · rcases hu : unmarshalCSV f.lines with _ | servers
        · exact Or.inr (Or.inl (by simp [hu]))
        · exact Or.inr (Or.inr ⟨servers, by simp [hu]⟩)
    intro e h
    rcases hshape with h1 | h1 | ⟨s, h1⟩ <;> rw [h1] at h ⊢ <;> simp at h ⊢

/-- Witness for C8 at concrete inputs: a missing source yields the
not-found error, a malformed source yields the decode error with no
records, and a header-only source yields the empty sequence. -/
theorem c8_load_all_or_nothing_witness :
    loadFromFile [("bad.csv", ⟨[CSVLine.row nsA, CSVLine.malformed]⟩)] "nope.csv" =
      (none, some .notFound) ∧
    loadFromFile [("bad.csv", ⟨[CSVLine.row nsA, CSVLine.malformed]⟩)] "bad.csv" =
      (none, some .decodeError) ∧
    loadFromFile [("empty.csv", (⟨[]⟩ : CSVFile))] "empty.csv" = (some [], none) :=
  ⟨(c8_load_all_or_nothing [("bad.csv", ⟨[CSVLine.row nsA, CSVLine.malformed]⟩)] "nope.csv").1
      (by decide),
   (c8_load_all_or_nothing [("bad.csv", ⟨[CSVLine.row nsA, CSVLine.malformed]⟩)] "bad.csv").2.1
      ⟨[CSVLine.row nsA, CSVLine.malformed]⟩ (by decide) (by decide),
   (c8_load_all_or_nothing [("empty.csv", (⟨[]⟩ : CSVFile))] "empty.csv").2.2.1
      ⟨[]⟩ (by decide) rfl⟩

theorem insertSorted_perm (le : Nameserver → Nameserver → Bool) (a : Nameserver) :
    ∀ l : List Nameserver, (insertSorted le a l).Perm (a :: l) := by
  intro l
  induction l with
  | nil => exact List.Perm.refl _
  | cons b l ih =>
    unfold insertSorted
    split
    · exact List.Perm.refl _
    · exact (List.Perm.cons b ih).trans (List.Perm.swap a b l)

theorem sortBy_perm (le : Nameserver → Nameserver → Bool) :
    ∀ l : List Nameserver, (sortBy le l).Perm l := by
  intro l
  induction l with
  | nil => exact List.Perm.refl _
  | cons a l ih =>
    exact (insertSorted_perm le a (sortBy le l)).trans (List.Perm.cons a ih)

theorem mem_sortBy (le : Nameserver → Nameserver → Bool) (l : List Nameserver)
    (x : Nameserver) : x ∈ sortBy le l ↔ x ∈ l :=
  (sortBy_perm le l).mem_iff

theorem insertSorted_pairwise (le : Nameserver → Nameserver → Bool)
    (htot : ∀ a b, le a b = true ∨ le b a = true)
    (htr : ∀ a b c, le a b = true → le b c = true → le a c = true)
    (a : Nameserver) :
    ∀ l : List Nameserver, l.Pairwise (fun x y => le x y = true) →
      (insertSorted le a l).Pairwise (fun x y => le x y = true) := by
  intro l
  induction l with
  | nil =>
    intro _
    exact List.pairwise_singleton _ _
  | cons b l ih =>
    intro hp
    unfold insertSorted
    split
    · refine List.Pairwise.cons ?_ hp
      intro x hx
      rcases List.mem_cons.mp hx with h1 | h1
      · subst h1
        assumption
      · exact htr a b x (by assumption) (List.rel_of_pairwise_cons hp h1)
    · refine List.Pairwise.cons ?_ (ih (List.Pairwise.of_cons hp))
      intro x hx
      rcases List.mem_cons.mp ((insertSorted_perm le a l).mem_iff.mp hx) with h1 | h1
      · rw [h1]
        rcases htot a b with h2 | h2
        · exact absurd h2 (by assumption)
        · exact h2
      · exact List.rel_of_pairwise_cons hp h1

theorem sortBy_pairwise (le : Nameserver → Nameserver → Bool)
    (htot : ∀ a b, le a b = true ∨ le b a = true)
    (htr : ∀ a b c, le a b = true → le b c = true → le a c = true) :
    ∀ l : List Nameserver, (sortBy le l).Pairwise (fun x y => le x y = true) := by
  intro l
  induction l with
  | nil => exact List.Pairwise.nil
  | cons a l ih => exact insertSorted_pairwise le htot htr a (sortBy le l) ih

theorem countryLe_total (a b : Nameserver) : countryLe a b = true ∨ countryLe b a = true := by
  unfold countryLe
  rcases le_total a.country.data b.country.data with h | h
  · exact Or.inl (decide_eq_true h)
  · exact Or.inr (decide_eq_true h)

theorem countryLe_trans (a b c : Nameserver) (h1 : countryLe a b = true)
    (h2 : countryLe b c = true) : countryLe a c = true := by
  unfold countryLe at h1 h2 ⊢
  exact decide_eq_true (le_trans (of_decide_eq_true h1) (of_decide_eq_true h2))

theorem countryLe_false_ne (a b : Nameserver) (h : countryLe a b = false) :
    b.country ≠ a.country := by
  unfold countryLe at h
  intro he
  refine of_decide_eq_false h ?_
  rw [he]

theorem innerLe_total (a b : Nameserver) : innerLe a b = true ∨ innerLe b a = true := by
  unfold innerLe
  rcases lt_trichotomy a.reliability b.reliability with h | h | h
  · left
    simp [h]
  · rcases le_total a.checkedAt b.checkedAt with h2 | h2
    · left
      simp [h, h2]
    · right
      simp [h.symm, h2]
  · right
    simp [h]

theorem innerLe_trans (a b c : Nameserver) (h1 : innerLe a b = true)
    (h2 : innerLe b c = true) : innerLe a c = true := by
  unfold innerLe at h1 h2 ⊢
  simp only [Bool.or_eq_true, Bool.and_eq_true, decide_eq_true_eq] at h1 h2 ⊢
  rcases h1 with h1 | ⟨h1e, h1c⟩ <;> rcases h2 with h2 | ⟨h2e, h2c⟩
  · exact Or.inl (lt_trans h1 h2)
  · exact Or.inl (lt_of_lt_of_le h1 (le_of_eq h2e))
  · exact Or.inl (lt_of_le_of_lt (le_of_eq h1e) h2)
  · exact Or.inr ⟨h1e.trans h2e, le_trans h1c h2c⟩

theorem goodFor_spec (countries : List String) (r : Nameserver)
    (h : goodFor countries r = true) :
    r.country ∈ countries ∧ r.name ≠ "" ∧ r.city ≠ "" ∧ r.reliability = 1 := by
  unfold goodFor at h
  simp only [Bool.and_eq_true, decide_eq_true_eq, Bool.not_eq_true',
    beq_eq_false_iff_ne] at h
  exact ⟨List.mem_of_elem_eq_true h.1.1.1, h.1.1.2, h.1.2, h.2⟩

theorem sorted_inner_mono (countries : List String) (l : List Nameserver) :
    (sortBy innerLe (l.filter (goodFor countries))).Pairwise sameCountryMono := by
  have hall : ∀ x ∈ sortBy innerLe (l.filter (goodFor countries)), x.reliability = 1 := by
    intro x hx
    have hx2 := (mem_sortBy _ _ x).mp hx
    exact (goodFor_spec countries x (List.mem_filter.mp hx2).2).2.2.2
  have hp := sortBy_pairwise innerLe innerLe_total innerLe_trans (l.filter (goodFor countries))
  refine List.Pairwise.imp_of_mem ?_ hp
  intro a b ha hb hab hc
  unfold innerLe at hab
  simp only [Bool.or_eq_true, Bool.and_eq_true, decide_eq_true_eq] at hab
  rcases hab with h | ⟨-, h⟩
  · rw [hall a ha, hall b hb] at h
    exact absurd h (lt_irrefl _)
  · exact h

theorem insertSorted_mono (a : Nameserver) :
    ∀ l : List Nameserver, l.Pairwise sameCountryMono →
      (∀ b ∈ l, sameCountryMono a b) →
      (insertSorted countryLe a l).Pairwise sameCountryMono := by
  intro l
  induction l with
  | nil =>
    intro _ _
    exact List.pairwise_singleton _ _
  | cons b l ih =>
    intro hp ha
    unfold insertSorted
    cases hab : countryLe a b
    · simp only [Bool.false_eq_true, if_false]
      refine List.Pairwise.cons ?_
        (ih (List.Pairwise.of_cons hp) (fun x hx => ha x (List.mem_cons_of_mem b hx)))
      intro x hx
      rcases List.mem_cons.mp ((insertSorted_perm countryLe a l).mem_iff.mp hx) with h1 | h1
      · rw [h1]
        intro he
        exact absurd he (countryLe_false_ne a b hab)
      · exact List.rel_of_pairwise_cons hp h1
    · simp only [if_true]
      exact List.Pairwise.cons ha hp

theorem sortBy_country_mono : ∀ l : List Nameserver, l.Pairwise sameCountryMono →
    (sortBy countryLe l).Pairwise sameCountryMono := by
  intro l
  induction l with
  | nil =>
    intro _
    exact List.Pairwise.nil
  | cons a l ih =>
    intro hp
    exact insertSorted_mono a (sortBy countryLe l) (ih (List.Pairwise.of_cons hp))
      (fun b hb => List.rel_of_pairwise_cons hp ((mem_sortBy _ _ b).mp hb))

theorem firstOfRunsAux_subset : ∀ (l : List Nameserver) (c : String),
    ∀ r ∈ firstOfRunsAux c l, r ∈ l := by
  intro l
  induction l with
  | nil =>
    intro c r hr
    simp [firstOfRunsAux] at hr
  | cons x l ih =>
    intro c r hr
    unfold firstOfRunsAux at hr
    cases hx : (x.country == c)
    · rw [hx] at hr
      simp only [Bool.false_eq_true, if_false] at hr
      rcases List.mem_cons.mp hr with h1 | h1
      · rw [h1]
        exact List.mem_cons_self x l
      · exact List.mem_cons_of_mem x (ih x.country r h1)
    · rw [hx] at hr
      simp only [if_true] at hr
      exact List.mem_cons_of_mem x (ih c r hr)

theorem firstOfRunsAux_gt : ∀ (l : List Nameserver) (c : String),
    l.Pairwise (fun a b => a.country.data ≤ b.country.data) →
    (∀ y ∈ l, c.data ≤ y.country.data) →
    ∀ r ∈ firstOfRunsAux c l, c.data < r.country.data := by
  intro l
  induction l with
  | nil =>
    intro c _ _ r hr
    simp [firstOfRunsAux] at hr
  | cons x l ih =>
    intro c hp hb r hr
    unfold firstOfRunsAux at hr
    cases hx : (x.country == c)
    · rw [hx] at hr
      simp only [Bool.false_eq_true, if_false] at hr
      have hcx : c.data < x.country.data := by
        refine lt_of_le_of_ne (hb x (List.mem_cons_self x l)) ?_
        intro he
        exact (beq_eq_false_iff_ne.mp hx) (String.ext he.symm)
      rcases List.mem_cons.mp hr with h1 | h1
      · rw [h1]
        exact hcx
      · refine lt_trans hcx ?_
        exact ih x.country (List.Pairwise.of_cons hp)
          (fun y hy => List.rel_of_pairwise_cons hp hy) r h1
    · rw [hx] at hr
      simp only [if_true] at hr
      have hxc : x.country = c := beq_iff_eq.mp hx
      refine ih c (List.Pairwise.of_cons hp) ?_ r hr
      intro y hy
      rw [← hxc]
      exact List.rel_of_pairwise_cons hp hy

theorem firstOfRunsAux_pairwise_lt : ∀ (l : List Nameserver) (c : String),
    l.Pairwise (fun a b => a.country.data ≤ b.country.data) →
    (firstOfRunsAux c l).Pairwise (fun a b => a.country.data < b.country.data) := by
  intro l
  induction l with
  | nil =>
    intro c _
    simp [firstOfRunsAux]
  | cons x l ih =>
    intro c hp
    unfold firstOfRunsAux
    cases hx : (x.country == c)
    · simp only [Bool.false_eq_true, if_false]
      refine List.Pairwise.cons ?_ (ih x.country (List.Pairwise.of_cons hp))
      intro y hy
      exact firstOfRunsAux_gt l x.country (List.Pairwise.of_cons hp)
        (fun z hz => List.rel_of_pairwise_cons hp hz) y hy
    · simp only [if_true]
      exact ih c (List.Pairwise.of_cons hp)

theorem firstOfRunsAux_min : ∀ (l : List Nameserver) (c : String),
    l.Pairwise (fun a b => a.country.data ≤ b.country.data) →
    l.Pairwise sameCountryMono →
    (∀ y ∈ l, c.data ≤ y.country.data) →
    ∀ rep ∈ firstOfRunsAux c l, ∀ y ∈ l, y.country = rep.country →
      rep.checkedAt ≤ y.checkedAt := by
  intro l
  induction l with
  | nil =>
    intro c _ _ _ rep hrep
    simp [firstOfRunsAux] at hrep
  | cons x l ih =>
    intro c hp hm hb rep hrep
    unfold firstOfRunsAux at hrep
    cases hx : (x.country == c)
    · rw [hx] at hrep
      simp only [Bool.false_eq_true, if_false] at hrep
      rcases List.mem_cons.mp hrep with h1 | h1
      · subst h1
        intro y hy hyc
        rcases List.mem_cons.mp hy with h2 | h2
        · rw [h2]
        · exact List.rel_of_pairwise_cons hm h2 hyc.symm
      · have hgt : rep.country.data > x.country.data :=
          firstOfRunsAux_gt l x.country (List.Pairwise.of_cons hp)
            (fun z hz => List.rel_of_pairwise_cons hp hz) rep h1
        intro y hy hyc
        rcases List.mem_cons.mp hy with h2 | h2
        · rw [h2] at hyc
          exact absurd (congrArg String.data hyc.symm) (ne_of_gt hgt)
        · exact ih x.country (List.Pairwise.of_cons hp) (List.Pairwise.of_cons hm)
            (fun z hz => List.rel_of_pairwise_cons hp hz) rep h1 y h2 hyc
    · rw [hx] at hrep
      simp only [if_true] at hrep
      have hxc : x.country = c := beq_iff_eq.mp hx
      have hgt : c.data < rep.country.data :=
        firstOfRunsAux_gt l c (List.Pairwise.of_cons hp)
          (fun z hz => hxc ▸ List.rel_of_pairwise_cons hp hz) rep hrep
      intro y hy hyc
      rcases List.mem_cons.mp hy with h2 | h2
      · rw [h2] at hyc
        rw [hxc] at hyc
        exact absurd (congrArg String.data hyc.symm) (ne_of_gt hgt)
      · exact ih c (List.Pairwise.of_cons hp) (List.Pairwise.of_cons hm)
          (fun z hz => hxc ▸ List.rel_of_pairwise_cons hp hz) rep hrep y h2 hyc

theorem firstOfRuns_subset (l : List Nameserver) : ∀ r ∈ firstOfRuns l, r ∈ l := by
  cases l with
  | nil =>
    intro r hr
    simp [firstOfRuns] at hr
  | cons x l =>
    intro r hr
    unfold firstOfRuns at hr
    rcases List.mem_cons.mp hr with h1 | h1
    · rw [h1]
      exact List.mem_cons_self x l
    · exact List.mem_cons_of_mem x (firstOfRunsAux_subset l x.country r h1)

theorem firstOfRuns_min (l : List Nameserver)
    (hp : l.Pairwise (fun a b => a.country.data ≤ b.country.data))
    (hm : l.Pairwise sameCountryMono) :
    ∀ rep ∈ firstOfRuns l, ∀ y ∈ l, y.country = rep.country →
      rep.checkedAt ≤ y.checkedAt := by
  cases l with
  | nil =>
    intro rep hrep
    simp [firstOfRuns] at hrep
  | cons x l =>
    intro rep hrep
    unfold firstOfRuns at hrep
    rcases List.mem_cons.mp hrep with h1 | h1
    · subst h1
      intro y hy hyc
      rcases List.mem_cons.mp hy with h2 | h2
      · rw [h2]
      · exact List.rel_of_pairwise_cons hm h2 hyc.symm
    · have hgt : x.country.data < rep.country.data :=
        firstOfRunsAux_gt l x.country (List.Pairwise.of_cons hp)
          (fun z hz => List.rel_of_pairwise_cons hp hz) rep h1
      intro y hy hyc
      rcases List.mem_cons.mp hy with h2 | h2
      · rw [h2] at hyc
        exact absurd (congrArg String.data hyc.symm) (ne_of_gt hgt)
      · exact firstOfRunsAux_min l x.country (List.Pairwise.of_cons hp)
          (List.Pairwise.of_cons hm)
          (fun z hz => List.rel_of_pairwise_cons hp hz) rep h1 y h2 hyc

theorem firstOfRuns_pairwise_lt (l : List Nameserver)
    (hp : l.Pairwise (fun a b => a.country.data ≤ b.country.data)) :
    (firstOfRuns l).Pairwise (fun a b => a.country.data < b.country.data) := by
  cases l with
  | nil => simp [firstOfRuns]
  | cons x l =>
    unfold firstOfRuns
    refine List.Pairwise.cons ?_ (firstOfRunsAux_pairwise_lt l x.country (List.Pairwise.of_cons hp))
    intro y hy
    exact firstOfRunsAux_gt l x.country (List.Pairwise.of_cons hp)
      (fun z hz => List.rel_of_pairwise_cons hp hz) y hy

theorem getBestFromCountries_eq (st : DBState) (rows : List Nameserver)
    (countries : List String) (h : st.table = some rows) (hne : countries ≠ []) :
    getBestFromCountries st countries =
      .ok ((firstOfRuns (sortBy countryLe (sortBy innerLe
        (rows.filter (goodFor countries))))).map scanICC) := by
  have hempty : countries.isEmpty = false := by
    cases countries with
    | nil => exact absurd rfl hne
    | cons c cs => rfl
  unfold getBestFromCountries
  rw [hempty, h]
  simp

/-- C2: for every non-empty set of country codes over a populated store,
`GetBestFromCountries` returns at most one record per country — the
returned country values are pairwise distinct and all requested — and
every returned record is the projection of a row with non-empty name,
non-empty city and reliability exactly 1 whose checked-at is earliest
among that country's qualifying rows; a requested country with no
qualifying row contributes no record at all. -/
theorem c2_best_per_country (st : DBState) (rows : List Nameserver)
    (countries : List String) (h : st.table = some rows) (hne : countries ≠ []) :
    ∃ res, getBestFromCountries st countries = .ok res ∧
      (∀ r ∈ res, ∃ row, row ∈ rows ∧ goodFor countries row = true ∧ r = scanICC row ∧
        row.country ∈ countries ∧
        ∀ y ∈ rows, goodFor countries y = true → y.country = row.country →
          row.checkedAt ≤ y.checkedAt) ∧
      (res.map (fun r => r.country)).Pairwise (fun a b => a ≠ b) ∧
      (∀ c ∈ countries, (∀ y ∈ rows, goodFor countries y = true → y.country ≠ c) →
        ∀ r ∈ res, r.country ≠ c) := by
  have hmono : (sortBy innerLe (rows.filter (goodFor countries))).Pairwise sameCountryMono :=
    sorted_inner_mono countries rows
  have hple : (sortBy countryLe (sortBy innerLe (rows.filter (goodFor countries)))).Pairwise
      (fun a b => a.country.data ≤ b.country.data) := by
    refine List.Pairwise.imp ?_ (sortBy_pairwise countryLe countryLe_total countryLe_trans _)
    intro a b hab
    unfold countryLe at hab
    exact of_decide_eq_true hab
  have hpm : (sortBy countryLe (sortBy innerLe (rows.filter (goodFor countries)))).Pairwise
      sameCountryMono := sortBy_country_mono _ hmono
  have hmemg : ∀ x, x ∈ sortBy countryLe (sortBy innerLe (rows.filter (goodFor countries))) ↔
      x ∈ rows.filter (goodFor countries) := by
    intro x
    rw [mem_sortBy, mem_sortBy]
  refine ⟨_, getBestFromCountries_eq st rows countries h hne, ?_, ?_, ?_⟩
  · intro r hr
    rcases List.mem_map.mp hr with ⟨rep, hrep, hrscan⟩
    have hrepg : rep ∈ rows.filter (goodFor countries) :=
      (hmemg rep).mp (firstOfRuns_subset _ rep hrep)
    have hrow := List.mem_filter.mp hrepg
    refine ⟨rep, hrow.1, hrow.2, hrscan.symm, (goodFor_spec countries rep hrow.2).1, ?_⟩
    intro y hy hyg hyc
    have hymem : y ∈ sortBy countryLe (sortBy innerLe (rows.filter (goodFor countries))) :=
      (hmemg y).mpr (List.mem_filter.mpr ⟨hy, hyg⟩)
    exact firstOfRuns_min _ hple hpm rep hrep y hymem hyc
  · have hlt := firstOfRuns_pairwise_lt _ hple
    rw [List.map_map]
    refine List.pairwise_map.mpr ?_
    refine List.Pairwise.imp ?_ hlt
    intro a b hab he
    exact absurd (congrArg String.data he) (ne_of_lt hab)
  · intro c hc hnone r hr
    rcases List.mem_map.mp hr with ⟨rep, hrep, hrscan⟩
    have hrepg := (hmemg rep).mp (firstOfRuns_subset _ rep hrep)
    have hrow := List.mem_filter.mp hrepg
    rw [← hrscan]
    exact hnone rep hrow.1 hrow.2

/-- Witness for C2 at a concrete input: of the two qualifying German rows
the earlier-checked one (`nsA`) is returned, the below-maximum-reliability
German row is ignored, and the one qualifying United States row is
returned; one record per requested country. -/
theorem c2_best_per_country_witness :
    getBestFromCountries ⟨some [nsC, nsA, nsLow, nsB], true⟩ ["US", "DE"] =
      .ok [scanICC nsA, scanICC nsB] ∧
    (∃ res, getBestFromCountries ⟨some [nsC, nsA, nsLow, nsB], true⟩ ["US", "DE"] = .ok res ∧
      (∀ r ∈ res, ∃ row, row ∈ [nsC, nsA, nsLow, nsB] ∧
        goodFor ["US", "DE"] row = true ∧ r = scanICC row ∧
        row.country ∈ ["US", "DE"] ∧
        ∀ y ∈ [nsC, nsA, nsLow, nsB], goodFor ["US", "DE"] y = true →
          y.country = row.country → row.checkedAt ≤ y.checkedAt) ∧
      (res.map (fun r => r.country)).Pairwise (fun a b => a ≠ b) ∧
      (∀ c ∈ ["US", "DE"], (∀ y ∈ [nsC, nsA, nsLow, nsB],
          goodFor ["US", "DE"] y = true → y.country ≠ c) →
        ∀ r ∈ res, r.country ≠ c)) :=
  ⟨by decide,
   c2_best_per_country ⟨some [nsC, nsA, nsLow, nsB], true⟩ [nsC, nsA, nsLow, nsB]
     ["US", "DE"] rfl (by decide)⟩

/-- C4, recording the code bug: called with an empty set of country codes,
`GetBestFromCountries` evaluates `strings.Repeat(", ?", len(countries)-1)`
with a negative count while building the placeholder list, which panics
before any statement is prepared — whatever the state of the store — so
the operation never returns an InvalidArgument error value. -/
theorem c4_empty_countries_panics :
    getBestFromCountries ⟨some [nsA, nsB], true⟩ [] = .panicked ∧
    getBestFromCountries emptyDB [] = .panicked :=
  ⟨rfl, rfl⟩

theorem lastMaxRel_cons_none (x : Nameserver) (xs : List Nameserver)
    (hm : lastMaxRel xs = none) : lastMaxRel (x :: xs) = some x := by
  unfold lastMaxRel
  rw [hm]

theorem lastMaxRel_cons_some (x m : Nameserver) (xs : List Nameserver)
    (hm : lastMaxRel xs = some m) :
    lastMaxRel (x :: xs) =
      if m.reliability < x.reliability then some x else some m := by
  unfold lastMaxRel
  rw [hm]

theorem lastMaxRel_eq_none : ∀ l : List Nameserver, lastMaxRel l = none → l = [] := by
  intro l h
  cases l with
  | nil => rfl
  | cons x xs =>
    rcases hm : lastMaxRel xs with _ | m
    · rw [lastMaxRel_cons_none x xs hm] at h
      exact absurd h (by simp)
    · rw [lastMaxRel_cons_some x m xs hm] at h
      by_cases hlt : m.reliability < x.reliability
      · rw [if_pos hlt] at h
        exact absurd h (by simp)
      · rw [if_neg hlt] at h
        exact absurd h (by simp)

theorem lastMaxRel_mem : ∀ (l : List Nameserver) (r : Nameserver),
    lastMaxRel l = some r → r ∈ l := by
  intro l
  induction l with
  | nil =>
    intro r h
    simp [lastMaxRel] at h
  | cons x xs ih =>
    intro r h
    rcases hm : lastMaxRel xs with _ | m
    · rw [lastMaxRel_cons_none x xs hm] at h
      simp only [Option.some.injEq] at h
      rw [← h]
      exact List.mem_cons_self x xs
    · rw [lastMaxRel_cons_some x m xs hm] at h
      by_cases hlt : m.reliability < x.reliability
      · rw [if_pos hlt] at h
        simp only [Option.some.injEq] at h
        rw [← h]
        exact List.mem_cons_self x xs
      · rw [if_neg hlt] at h
        simp only [Option.some.injEq] at h
        rw [← h]
        exact List.mem_cons_of_mem x (ih m hm)

theorem lastMaxRel_max : ∀ (l : List Nameserver) (r : Nameserver),
    lastMaxRel l = some r → ∀ y ∈ l, y.reliability ≤ r.reliability := by
  intro l
  induction l with
  | nil =>
    intro r h
    simp [lastMaxRel] at h
  | cons x xs ih =>
    intro r h y hy
    rcases hm : lastMaxRel xs with _ | m
    · have hxs : xs = [] := lastMaxRel_eq_none xs hm
      subst hxs
      rw [lastMaxRel_cons_none x [] hm] at h
      simp only [Option.some.injEq] at h
      rcases List.mem_cons.mp hy with h2 | h2
      · rw [h2, ← h]
      · cases h2
    · rw [lastMaxRel_cons_some x m xs hm] at h
      by_cases hlt : m.reliability < x.reliability
      · rw [if_pos hlt] at h
        simp only [Option.some.injEq] at h
        rw [← h]
        rcases List.mem_cons.mp hy with h2 | h2
        · rw [h2]
        · exact le_of_lt (lt_of_le_of_lt (ih m hm y h2) hlt)
      · rw [if_neg hlt] at h
        simp only [Option.some.injEq] at h
        rw [← h]
        rcases List.mem_cons.mp hy with h2 | h2
        · rw [h2]
          exact le_of_not_lt hlt
        · exact ih m hm y h2

theorem lastMaxRel_last : ∀ (l : List Nameserver) (r : Nameserver),
    lastMaxRel l = some r →
    ∃ l1 l2, l = l1 ++ r :: l2 ∧ ∀ y ∈ l2, y.reliability < r.reliability := by
  intro l
  induction l with
  | nil =>
    intro r h
    simp [lastMaxRel] at h
  | cons x xs ih =>
    intro r h
    rcases hm : lastMaxRel xs with _ | m
    · have hxs : xs = [] := lastMaxRel_eq_none xs hm
      subst hxs
      rw [lastMaxRel_cons_none x [] hm] at h
      simp only [Option.some.injEq] at h
      refine ⟨[], [], by simp [h], by simp⟩
    · rw [lastMaxRel_cons_some x m xs hm] at h
      by_cases hlt : m.reliability < x.reliability
      · rw [if_pos hlt] at h
        simp only [Option.some.injEq] at h
        refine ⟨[], xs, by simp [h], ?_⟩
        intro y hy
        rw [← h]
        exact lt_of_le_of_lt (lastMaxRel_max xs m hm y hy) hlt
      · rw [if_neg hlt] at h
        simp only [Option.some.injEq] at h
        obtain ⟨l1, l2, hsplit, hl2⟩ := ih m hm
        refine ⟨x :: l1, l2, ?_, ?_⟩
        · rw [hsplit, h]
          rfl
        · rw [← h]
          exact hl2

/-- Counterexample to C6: two German rows (`nsA` first in store order, then
`nsC`) share the maximal reliability 1; the first such row is `nsA`, as
`firstMaxRel` computes, but `GetBestFromCountry` returns the projection of
`nsC`, the later one, because the engine satisfies the descending ordering
by scanning the reliability index backwards. -/
theorem c6_tie_counterexample :
    firstMaxRel ([nsA, nsC].filter (fun r => r.country == "DE")) = some nsA ∧
    getBestFromCountry ⟨some [nsA, nsC], true⟩ "DE" = .ok (scanICC nsC) ∧
    scanICC nsC ≠ scanICC nsA := by
  refine ⟨by decide, by rfl, by decide⟩

/-- C6 as amended: over a populated store `GetBestFromCountry` returns the
projection of a row of the requested country with maximal reliability among
that country's rows, and a reliability tie resolves to the last such
maximal row in store (insertion) order — the engine satisfies `ORDER BY
reliability DESC LIMIT 1` by a backward scan of the `(country,
reliability)` index, so it reaches the most recently inserted tied row
first, not the first one; it returns the NotFound error (`sql.ErrNoRows`)
exactly when no row matches the country. -/
theorem c6_best_from_country (st : DBState) (rows : List Nameserver) (code : String)
    (h : st.table = some rows) :
    (rows.filter (fun r => r.country == code) = [] →
      getBestFromCountry st code = .error .noRows) ∧
    (∀ r, lastMaxRel (rows.filter (fun r => r.country == code)) = some r →
      getBestFromCountry st code = .ok (scanICC r) ∧
      r ∈ rows ∧ r.country = code ∧
      (∀ y ∈ rows, y.country = code → y.reliability ≤ r.reliability) ∧
      (∃ l1 l2, rows.filter (fun rr => rr.country == code) = l1 ++ r :: l2 ∧
        ∀ y ∈ l2, y.reliability < r.reliability)) := by
  have hred : getBestFromCountry st code =
      match lastMaxRel (rows.filter (fun r => r.country == code)) with
      | none => .error .noRows
      | some r => .ok (scanICC r) := by
    unfold getBestFromCountry
    rw [h]
  constructor
  · intro hf
    rw [hred, hf]
    rfl
  · intro r hr
    refine ⟨?_, ?_, ?_, ?_, ?_⟩
    · rw [hred, hr]
    · exact (List.mem_filter.mp (lastMaxRel_mem _ r hr)).1
    · exact beq_iff_eq.mp (List.mem_filter.mp (lastMaxRel_mem _ r hr)).2
    · intro y hy hyc
      exact lastMaxRel_max _ r hr y (List.mem_filter.mpr ⟨hy, beq_iff_eq.mpr hyc⟩)
    · exact lastMaxRel_last _ r hr

/-- Witness for the amended C6 at a concrete input: of the two German rows
the fully reliable one (`nsA`, the repository's own test address) is
returned, it is maximal among German rows, and it is the last maximal row
of the filtered store. -/
theorem c6_best_from_country_witness :
    getBestFromCountry ⟨some [nsA, nsLow], true⟩ "DE" = .ok (scanICC nsA) ∧
    nsA ∈ [nsA, nsLow] ∧ nsA.country = "DE" ∧
    (∀ y ∈ [nsA, nsLow], y.country = "DE" → y.reliability ≤ nsA.reliability) ∧
    (∃ l1 l2, [nsA, nsLow].filter (fun rr => rr.country == "DE") = l1 ++ nsA :: l2 ∧
      ∀ y ∈ l2, y.reliability < nsA.reliability) :=
  (c6_best_from_country ⟨some [nsA, nsLow], true⟩ [nsA, nsLow] "DE" rfl).2 nsA (by decide)

/-- C10: every record returned by `GetAllFromCountry`, `GetBestFromCountry`
or `GetBestFromCountries` has only its ip address, country and city fields
populated from the store; its name, version, error, dnssec, reliability,
checked-at and created-at fields are the zero values regardless of what was
ingested. -/
theorem c10_zero_fields (st : DBState) (code : String) (countries : List String) :
    (∀ l, getAllFromCountry st code = some l → ∀ r ∈ l, zeroExceptICC r) ∧
    (∀ r, getBestFromCountry st code = .ok r → zeroExceptICC r) ∧
    (∀ l, getBestFromCountries st countries = .ok l → ∀ r ∈ l, zeroExceptICC r) := by
  have hz : ∀ x : Nameserver, zeroExceptICC (scanICC x) := by
    intro x
    exact ⟨rfl, rfl, rfl, rfl, rfl, rfl, rfl⟩
  refine ⟨?_, ?_, ?_⟩
  · intro l hl r hr
    unfold getAllFromCountry at hl
    rcases hst : st.table with _ | rows <;> rw [hst] at hl
    · exact absurd hl (by simp)
    · simp only [Option.some.injEq] at hl
      rw [← hl] at hr
      rcases List.mem_map.mp hr with ⟨y, -, hy⟩
      rw [← hy]
      exact hz y
  · intro r hr
    rcases hst : st.table with _ | rows
    · unfold getBestFromCountry at hr
      rw [hst] at hr
      exact absurd hr (by simp)
    · have hred : getBestFromCountry st code =
          match lastMaxRel (rows.filter (fun rr => rr.country == code)) with
          | none => .error .noRows
          | some m => .ok (scanICC m) := by
        unfold getBestFromCountry
        rw [hst]
      rw [hred] at hr
      rcases hm : lastMaxRel (rows.filter (fun rr => rr.country == code)) with _ | m <;>
        rw [hm] at hr
      · exact absurd hr (by simp)
      · simp only [Except.ok.injEq] at hr
        rw [← hr]
        exact hz m
  · intro l hl r hr
    rcases hemp : countries.isEmpty with _ | _
    · have hne : countries ≠ [] := by
        cases countries with
        | nil => simp at hemp
        | cons c cs => simp
      rcases hst : st.table with _ | rows
      · unfold getBestFromCountries at hl
        rw [hemp, hst] at hl
        exact absurd hl (by simp)
      · rw [getBestFromCountries_eq st rows countries hst hne] at hl
        simp only [CountriesResult.ok.injEq] at hl
        rw [← hl] at hr
        rcases List.mem_map.mp hr with ⟨y, -, hy⟩
        rw [← hy]
        exact hz y
    · unfold getBestFromCountries at hl
      rw [hemp] at hl
      exact absurd hl (by simp)

/-- Witness for C10 at a concrete input: the record returned for the single
German row has empty name, version and error, false dnssec, zero
reliability and zero timestamps. -/
theorem c10_zero_fields_witness : zeroExceptICC (scanICC nsA) :=
  (c10_zero_fields ⟨some [nsA], true⟩ "DE" ["DE"]).1 [scanICC nsA] (by decide)
    (scanICC nsA) (List.mem_cons_self _ _)
